import Mathlib

set_option maxRecDepth 10000

/-!
Shallow embedding of the popcap-pak codec (repository files src/src/lib.rs and
src/src/pak.rs).  Wire bytes are modelled as natural numbers (values 0..255 on
a real wire) and byte streams as `List Nat`.  lib.rs declares the submodules
`reader`, `writer` and `entry`, but their files are not part of the snapshot;
the behaviour of `PakReader`, `PakWriter` and `Entry` internals is therefore
modelled from the specification, and each such definition says so in its doc
comment.  Everything else is translated directly from lib.rs / pak.rs.
-/

/-- Modelled from the spec: the obfuscation byte transform implemented by the
missing reader/writer modules (reader.rs, writer.rs): a fixed exclusive-or
with `0xf7`, per the spec section 4.1 and the `MAGIC` doc comment in lib.rs
(the magic constant is the wire bytes "7½7M" XORed with `0xf7`). -/
def transform (b : Nat) : Nat := b ^^^ 0xf7

/-- lib.rs line 15: the maximum length of a file name (`u8::MAX`). -/
def MAX_NAME_LEN : Nat := 255

/-- lib.rs line 17: the maximum data length of one file (`u32::MAX`). -/
def MAX_DATA_LEN : Nat := 4294967295

/-- lib.rs line 19: the (already un-obfuscated) magic number of a pak file. -/
def MAGIC : List Nat := [0xc0, 0x4a, 0xc0, 0xba]

/-- lib.rs line 21: the single supported version, `[0; 4]`. -/
def VERSION : List Nat := [0x00, 0x00, 0x00, 0x00]

/-- lib.rs line 23: flag bit marking the end of the record table. -/
def FILEFLAGS_END : Nat := 0x80

/-- lib.rs line 30: the two accepted path separator bytes, `b"\\/"`. -/
def PATH_SEPERATOR_BYTESET : List Nat := [92, 47]

/-- lib.rs lines 36-50: the error type of the library.  `Io` carries a
`std::io::Error`; all I/O failures in the model are short reads, so the
payload is dropped. -/
inductive PakError where
  | ioError : PakError
  | invalidMagic : List Nat → PakError
  | invalidVersion : List Nat → PakError
  | invalidNameLength : Nat → PakError
  | invalidDataLength : Nat → PakError
deriving DecidableEq

/-- lib.rs lines 58-63: one transient record of the table. -/
structure Record where
  name : List Nat
  file_size : Nat
  filetime : Nat
deriving DecidableEq

/-- Modelled from the spec: one `Entry` (entry.rs is missing).  In the source
an entry is a path (`BString`), a `u64` filetime, and
`data : Cursor<Cow<[u8]>>`; the cursor is modelled by the byte list `data`
plus the read position `pos`, and the `Cow` by the flag `owned`.  Per spec
sections 3 and 4.2, an owned entry stores already-decoded payload bytes while
a borrowed entry stores the still-obfuscated input bytes and decodes them
lazily when read. -/
structure Entry where
  path : List Nat
  filetime : Nat
  owned : Bool
  data : List Nat
  pos : Nat
deriving DecidableEq

/-- Modelled from the spec: the decoded payload bytes an entry's reader
yields from position 0 (entry.rs is missing).  Owned data is stored decoded;
borrowed data passes through the transform at point of read. -/
def Entry.decoded (e : Entry) : List Nat :=
  if e.owned then e.data else e.data.map transform

/-- Modelled from the spec: `Entry::size`, the current logical payload
length (entry.rs is missing; spec section 4.4).  The transform is bytewise,
so raw and decoded lengths agree. -/
def Entry.size (e : Entry) : Nat := e.data.length

/-- Modelled from the spec: `Entry::into_owned` (entry.rs is missing):
converting to the independently-owned form copies (and decodes) a borrowed
payload and is the identity on an owned one. -/
def Entry.into_owned (e : Entry) : Entry :=
  if e.owned then e else ⟨e.path, e.filetime, true, e.data.map transform, e.pos⟩

/-- pak.rs lines 25-29: a pakfile is the ordered list of its entries. -/
structure Pak where
  entries : List Entry
deriving DecidableEq

/-- Result of a load operation.  `panicked` records a Rust panic (an index
out of range), which is distinct from returning a `PakError`. -/
inductive LoadResult where
  | ok : Pak → LoadResult
  | err : PakError → LoadResult
  | panicked : LoadResult
deriving DecidableEq

/-- Modelled from the spec: reading `n` bytes through the transforming
`PakReader` (reader.rs is missing; spec sections 4.1-4.2).  A short read is
the underlying I/O error. -/
def readBytes (n : Nat) (s : List Nat) : Except PakError (List Nat × List Nat) :=
  if n ≤ s.length then .ok ((s.take n).map transform, s.drop n) else .error .ioError

/-- Modelled from the spec: `PakReader::read_magic` (reader.rs is missing):
read 4 bytes through the transform and compare with `MAGIC`, failing with
`InvalidMagic` carrying the bytes read. -/
def read_magic (s : List Nat) : Except PakError (List Nat) :=
  match readBytes 4 s with
  | .error e => .error e
  | .ok (m, rest) => if m = MAGIC then .ok rest else .error (.invalidMagic m)

/-- Modelled from the spec: `PakReader::read_version` (reader.rs is
missing): read 4 bytes through the transform and compare with `VERSION`. -/
def read_version (s : List Nat) : Except PakError (List Nat) :=
  match readBytes 4 s with
  | .error e => .error e
  | .ok (v, rest) => if v = VERSION then .ok rest else .error (.invalidVersion v)

/-- Little-endian decoding of a byte list (least significant byte first),
as done by `byteorder::LE` reads. -/
def leDecode : List Nat → Nat
  | [] => 0
  | b :: bs => b + 256 * leDecode bs

/-- Little-endian encoding of `x` on `n` bytes, as done by
`byteorder::LE` writes. -/
def leEncode : Nat → Nat → List Nat
  | 0, _ => []
  | n + 1, x => x % 256 :: leEncode n (x / 256)

/-- Modelled from the spec: the body of `PakReader::read_records`
(reader.rs is missing; spec section 4.2): read a flag byte through the
transform; a byte with the end flag bit (`FILEFLAGS_END`) set terminates the
table, otherwise a record follows: a 1-byte name length, that many name
bytes, a 4-byte little-endian size and an 8-byte little-endian filetime, all
through the transform; truncated input is an I/O error.  `fuel` only bounds
the recursion; the wrapper `readRecords` passes the input length, which each
record's 14-byte minimum footprint makes sufficient. -/
def readRecordsF : Nat → List Nat → Except PakError (List Record × List Nat)
  | _, [] => .error .ioError
  | fuel, flag :: rest =>
    if transform flag &&& FILEFLAGS_END ≠ 0 then .ok ([], rest)
    else
      match fuel, rest with
      | 0, _ => .error .ioError
      | _ + 1, [] => .error .ioError
      | fuel' + 1, lb :: rest2 =>
        let nameLen := transform lb
        if nameLen + 12 ≤ rest2.length then
          let name := (rest2.take nameLen).map transform
          let r3 := rest2.drop nameLen
          let size := leDecode ((r3.take 4).map transform)
          let time := leDecode (((r3.drop 4).take 8).map transform)
          match readRecordsF fuel' (r3.drop 12) with
          | .error e => .error e
          | .ok (rs, rem) => .ok (⟨name, size, time⟩ :: rs, rem)
        else .error .ioError

/-- Modelled from the spec: `PakReader::read_records` (reader.rs is
missing), returning the parsed records and the remaining (raw) input. -/
def readRecords (s : List Nat) : Except PakError (List Record × List Nat) :=
  readRecordsF s.length s

/-- pak.rs lines 37-41 and 61-65: the shared header-and-table phase of both
load paths: magic, version, then the record table. -/
def parseTable (s : List Nat) : Except PakError (List Record × List Nat) :=
  match read_magic s with
  | .error e => .error e
  | .ok s1 =>
    match read_version s1 with
    | .error e => .error e
    | .ok s2 => readRecords s2

/-- pak.rs lines 43-53: the payload loop of `Pak::from_read`: for each
record, read exactly `file_size` bytes through the transforming reader into
an owned buffer; a short read surfaces the I/O error.  Input past the last
payload is never examined. -/
def readPayloads : List Record → List Nat → Except PakError (List Entry)
  | [], _ => .ok []
  | r :: rs, s =>
    match readBytes r.file_size s with
    | .error e => .error e
    | .ok (d, rest) =>
      match readPayloads rs rest with
      | .error e => .error e
      | .ok es => .ok (⟨r.name, r.filetime, true, d, 0⟩ :: es)

/-- pak.rs lines 69-80: the payload loop of `Pak::from_bytes`: for each
record, slice `file_size` raw bytes off the remaining input
(`let data = &bytes[..len]`).  A Rust slice index out of range panics, which
`none` records. -/
def slicePayloads : List Record → List Nat → Option (List Entry)
  | [], _ => some []
  | r :: rs, s =>
    if r.file_size ≤ s.length then
      match slicePayloads rs (s.drop r.file_size) with
      | none => none
      | some es => some (⟨r.name, r.filetime, false, s.take r.file_size, 0⟩ :: es)
    else none

/-- pak.rs lines 36-56: `Pak::from_read`. -/
def Pak.from_read (s : List Nat) : LoadResult :=
  match parseTable s with
  | .error e => .err e
  | .ok (rs, rest) =>
    match readPayloads rs rest with
    | .error e => .err e
    | .ok es => .ok ⟨es⟩

/-- pak.rs lines 60-83: `Pak::from_bytes`. -/
def Pak.from_bytes (s : List Nat) : LoadResult :=
  match parseTable s with
  | .error e => .err e
  | .ok (rs, rest) =>
    match slicePayloads rs rest with
    | none => .panicked
    | some es => .ok ⟨es⟩

/-- pak.rs lines 86-94: `Pak::into_owned`. -/
def Pak.into_owned (p : Pak) : Pak :=
  ⟨p.entries.map Entry.into_owned⟩

/-- Modelled from the spec: the wire bytes of the filename field emitted by
`PakWriter::write_filename` (writer.rs is missing; spec section 4.3): the
1-byte length followed by the name, everything through the transform. -/
def nameWire (e : Entry) : List Nat :=
  transform e.path.length :: e.path.map transform

/-- The wire bytes of the 4-byte little-endian size field of an entry. -/
def sizeWire (e : Entry) : List Nat := (leEncode 4 e.size).map transform

/-- The wire bytes of the 8-byte little-endian filetime field of an entry. -/
def timeWire (e : Entry) : List Nat := (leEncode 8 e.filetime).map transform

/-- The full wire bytes of one record of the table: flag `0x00`, name
length, name, size, filetime, all through the transform. -/
def recordWire (e : Entry) : List Nat :=
  transform 0x00 :: (nameWire e ++ sizeWire e ++ timeWire e)

/-- The wire bytes of one entry's payload as emitted by `write_to`:
`std::io::copy` reads the decoded bytes from the entry's current cursor
position and the writer re-applies the transform. -/
def payloadWire (e : Entry) : List Nat :=
  ((Entry.decoded e).drop e.pos).map transform

/-- pak.rs lines 102-112: the record-table loop of `Pak::write_to`,
returning the wire bytes emitted so far together with the first error, if
any.  For each entry: the flag byte `0x00` is written first; then
`write_filename` fails with `InvalidNameLength` if the name is longer than
`MAX_NAME_LEN` (before emitting anything, modelled from spec section 4.3,
writer.rs being missing); then the size's `try_into::<u32>()` fails with
`InvalidDataLength` before the size field is written; then the filetime. -/
def writeTableAux : List Entry → List Nat × Option PakError
  | [] => ([], none)
  | e :: es =>
    if e.path.length > MAX_NAME_LEN then
      ([transform 0x00], some (.invalidNameLength e.path.length))
    else if e.size > MAX_DATA_LEN then
      (transform 0x00 :: nameWire e, some (.invalidDataLength e.size))
    else
      let r := writeTableAux es
      (recordWire e ++ r.1, r.2)

/-- pak.rs lines 97-120: `Pak::write_to`.  The sink is modelled by the list
of wire bytes written; the result pairs it with the error, if any: magic and
version, the record table, the terminator flag, then every payload through
the transform. -/
def Pak.write_to (p : Pak) : List Nat × Option PakError :=
  let hdr := MAGIC.map transform ++ VERSION.map transform
  let t := writeTableAux p.entries
  match t.2 with
  | some e => (hdr ++ t.1, some e)
  | none =>
    (hdr ++ t.1 ++ transform FILEFLAGS_END :: (p.entries.map payloadWire).flatten, none)

/-- Modelled from the spec: whether a byte is one of the two accepted path
separators (entry.rs is missing; lib.rs line 30, spec section 4.4). -/
def isSep (b : Nat) : Bool := PATH_SEPERATOR_BYTESET.contains b

/-- Modelled from the spec: index of the last separator byte of a name, as
`bstr`'s reverse byte-set search used by `Entry::dir` (entry.rs is
missing). -/
def rfindSep : List Nat → Option Nat
  | [] => none
  | b :: rest =>
    match rfindSep rest with
    | some i => some (i + 1)
    | none => if isSep b then some 0 else none

/-- Modelled from the spec: the directory portion of a name derived by
`Entry::dir` (entry.rs is missing; spec section 4.4): everything up to and
including the last separator, or none when no separator occurs. -/
def dirOf (name : List Nat) : Option (List Nat) :=
  (rfindSep name).map (fun i => name.take (i + 1))

/-- Modelled from the spec: `Entry::dir` (entry.rs is missing). -/
def Entry.dir (e : Entry) : Option (List Nat) := dirOf e.path

/-- The observable content of an entry: path, filetime and fully decoded
payload bytes. -/
def obsEntry (e : Entry) : List Nat × Nat × List Nat :=
  (e.path, e.filetime, Entry.decoded e)

/-- The observable content of a pakfile: its entries' observable contents
in order. -/
def obsPak (p : Pak) : List (List Nat × Nat × List Nat) :=
  p.entries.map obsEntry

/-- Whether a load returned a pakfile. -/
def LoadResult.isOk : LoadResult → Bool
  | .ok _ => true
  | _ => false

/-- A record list needs more payload bytes than the `n` remaining. -/
def truncatedB : List Record → Nat → Bool
  | [], _ => false
  | r :: rs, n => decide (n < r.file_size) || truncatedB rs (n - r.file_size)

/-- The owned entry `Pak::from_read` builds for what `write_to p` emitted
for entry `e`. -/
def ownedOf (e : Entry) : Entry :=
  ⟨e.path, e.filetime, true, Entry.decoded e, 0⟩

/-- The pakfile `Pak::from_read` recovers from the output of
`Pak.write_to p` when `p`'s cursors are at the start. -/
def ownedLoad (p : Pak) : Pak :=
  ⟨p.entries.map ownedOf⟩

/-- The record `read_records` recovers for an entry written by
`write_to`. -/
def recordOf (e : Entry) : Record :=
  ⟨e.path, e.size, e.filetime⟩

/-- Whether a payload-reading pass succeeded. -/
def exIsOk : Except PakError (List Entry) → Bool
  | .ok _ => true
  | .error _ => false

/-- The wire bytes of an empty pakfile: magic, version, terminator. -/
def emptyPakBytes : List Nat := (MAGIC ++ VERSION ++ [FILEFLAGS_END]).map transform

/-- Wire bytes declaring one 1-byte payload but carrying none. -/
def truncInput : List Nat :=
  (MAGIC ++ VERSION ++ [0x00, 1, 97] ++ leEncode 4 1 ++ leEncode 8 0 ++ [FILEFLAGS_END]).map transform

/-- A small owned entry used by concrete witnesses. -/
def sampleEntry : Entry := ⟨[97], 5, true, [10, 20], 0⟩

/-- A one-entry pakfile used by concrete witnesses. -/
def samplePak : Pak := ⟨[sampleEntry]⟩

/-- The serialized bytes of `samplePak`. -/
def sampleBytes : List Nat := (Pak.write_to samplePak).1

/-- The borrowed-mode pakfile `Pak::from_bytes` recovers from
`sampleBytes`. -/
def sampleBorrowedPak : Pak := ⟨[⟨[97], 5, false, [transform 10, transform 20], 0⟩]⟩

/-- A pakfile whose only entry has a 256-byte name. -/
def c3Pak : Pak := ⟨[⟨List.replicate 256 97, 0, true, [], 0⟩]⟩

/-- A serializable entry preceding a failing one in witnesses. -/
def c3GoodEntry : Entry := ⟨[98], 3, true, [7], 0⟩

/-- An entry whose name has 300 bytes. -/
def c3BadEntry : Entry := ⟨List.replicate 300 97, 9, true, [1], 0⟩

/-- An entry whose payload is one byte longer than `MAX_DATA_LEN`. -/
def c7Entry : Entry := ⟨[97], 0, true, List.replicate 4294967296 0, 0⟩

/-- A two-entry pakfile (one owned, one borrowed) used by witnesses. -/
def c8Pak : Pak := ⟨[⟨[97], 3, true, [5, 6], 0⟩, ⟨[98], 7, false, [transform 9], 0⟩]⟩

/-- A one-entry, fully owned pakfile used by witnesses. -/
def c10Pak : Pak := ⟨[⟨[97], 1, true, [2], 0⟩]⟩

/-- The byte string "dir\b.txt". -/
def dirName : List Nat := [100, 105, 114, 92, 98, 46, 116, 120, 116]

/-- The byte string "a.txt" (no separator). -/
def flatName : List Nat := [97, 46, 116, 120, 116]

/-! ### Basic facts about the transform and the primitive reads -/

@[simp]
theorem transform_invol (b : Nat) : transform (transform b) = b := by
  simp [transform, Nat.xor_cancel_right]

@[simp]
theorem map_transform_invol (l : List Nat) : (l.map transform).map transform = l := by
  induction l with
  | nil => rfl
  | cons b bs ih => simp [ih]

@[simp]
theorem map_comp_transform (l : List Nat) : List.map (transform ∘ transform) l = l := by
  rw [← List.map_map]
  exact map_transform_invol l

theorem take_append_len {a : List Nat} (b : List Nat) (n : Nat) (h : a.length = n) :
    (a ++ b).take n = a := by
  subst h; exact List.take_left a b

theorem drop_append_len {a : List Nat} (b : List Nat) (n : Nat) (h : a.length = n) :
    (a ++ b).drop n = b := by
  subst h; exact List.drop_left a b

theorem readBytes_exact (a b : List Nat) :
    readBytes a.length (a ++ b) = .ok (a.map transform, b) := by
  unfold readBytes
  rw [if_pos (by simp), List.take_left, List.drop_left]

theorem read_magic_ok (rest : List Nat) :
    read_magic (MAGIC.map transform ++ rest) = .ok rest := by
  unfold read_magic
  rw [show (4 : Nat) = (MAGIC.map transform).length by simp [MAGIC], readBytes_exact]
  simp

theorem read_magic_bad (b4 s : List Nat) (h4 : b4.length = 4)
    (hm : b4.map transform ≠ MAGIC) :
    read_magic (b4 ++ s) = .error (.invalidMagic (b4.map transform)) := by
  unfold read_magic
  rw [← h4, readBytes_exact]
  simp [hm]

theorem read_version_ok (rest : List Nat) :
    read_version (VERSION.map transform ++ rest) = .ok rest := by
  unfold read_version
  rw [show (4 : Nat) = (VERSION.map transform).length by simp [VERSION], readBytes_exact]
  simp

theorem read_version_bad (v4 s : List Nat) (h4 : v4.length = 4)
    (hv : v4.map transform ≠ VERSION) :
    read_version (v4 ++ s) = .error (.invalidVersion (v4.map transform)) := by
  unfold read_version
  rw [← h4, readBytes_exact]
  simp [hv]

@[simp]
theorem leEncode_length (n x : Nat) : (leEncode n x).length = n := by
  induction n generalizing x with
  | zero => rfl
  | succ n ih => simp [leEncode, ih]

theorem leDecode_leEncode (n x : Nat) (h : x < 256 ^ n) :
    leDecode (leEncode n x) = x := by
  induction n generalizing x with
  | zero =>
    rw [pow_zero, Nat.lt_one_iff] at h
    simp [h, leEncode, leDecode]
  | succ n ih =>
    have hd : x / 256 < 256 ^ n := by
      rw [Nat.div_lt_iff_lt_mul (by norm_num)]
      calc x < 256 ^ (n + 1) := h
        _ = 256 ^ n * 256 := by rw [pow_succ]
    simp only [leEncode, leDecode, ih _ hd]
    omega

@[simp]
theorem decoded_length (e : Entry) : (Entry.decoded e).length = e.data.length := by
  unfold Entry.decoded
  split <;> simp

@[simp]
theorem sizeWire_length (e : Entry) : (sizeWire e).length = 4 := by
  simp [sizeWire]

@[simp]
theorem timeWire_length (e : Entry) : (timeWire e).length = 8 := by
  simp [timeWire]

/-! ### Parsing the record table that `write_to` emits -/

theorem readRecordsF_end (fuel : Nat) (rest : List Nat) :
    readRecordsF fuel (transform FILEFLAGS_END :: rest) = .ok ([], rest) := by
  unfold readRecordsF
  rw [if_pos (by simp [FILEFLAGS_END])]

theorem readRecordsF_cons (fuel : Nat) (e : Entry) (tail : List Nat)
    (hdata : e.size ≤ MAX_DATA_LEN)
    (hft : e.filetime < 2 ^ 64) :
    readRecordsF (fuel + 1) (recordWire e ++ tail) =
      match readRecordsF fuel tail with
      | .error er => .error er
      | .ok (rs, rem) => .ok (recordOf e :: rs, rem) := by
  have hsz : leDecode (leEncode 4 e.size) = e.size := by
    apply leDecode_leEncode
    have : (256 : Nat) ^ 4 = 4294967296 := by norm_num
    rw [this]
    have := hdata
    unfold MAX_DATA_LEN at this
    omega
  have htm : leDecode (leEncode 8 e.filetime) = e.filetime := by
    apply leDecode_leEncode
    have : (256 : Nat) ^ 8 = 2 ^ 64 := by norm_num
    omega
  have hshape : recordWire e ++ tail =
      transform 0x00 :: transform e.path.length ::
        (e.path.map transform ++ (sizeWire e ++ (timeWire e ++ tail))) := by
    simp [recordWire, nameWire, List.append_assoc]
  have hs : (sizeWire e).map transform = leEncode 4 e.size := by
    simp [sizeWire]
  have ht : (timeWire e).map transform = leEncode 8 e.filetime := by
    simp [timeWire]
  have hdrop : List.drop 12 (sizeWire e ++ (timeWire e ++ tail)) = tail := by
    rw [← List.append_assoc]
    exact drop_append_len _ 12 (by simp)
  generalize hR : readRecordsF fuel tail = R
  rw [hshape]
  unfold readRecordsF
  rw [if_neg (by simp [FILEFLAGS_END])]
  simp only [transform_invol]
  rw [if_pos (by simp; omega)]
  rw [take_append_len _ e.path.length (by simp), map_transform_invol]
  rw [drop_append_len _ e.path.length (by simp)]
  rw [take_append_len _ 4 (by simp), drop_append_len _ 4 (by simp)]
  rw [take_append_len _ 8 (by simp)]
  rw [hdrop, hR]
  simp only [hs, ht, hsz, htm, recordOf]

theorem entries_le_table_length (entries : List Entry) :
    entries.length ≤ ((entries.map recordWire).flatten).length := by
  induction entries with
  | nil => simp
  | cons e es ih =>
    simp only [List.map_cons, List.flatten_cons, List.length_append, List.length_cons]
    have : 1 ≤ (recordWire e).length := by simp [recordWire]
    omega

theorem readRecordsF_table (entries : List Entry) :
    ∀ (fuel : Nat) (rest : List Nat),
    (∀ e ∈ entries, e.size ≤ MAX_DATA_LEN ∧ e.filetime < 2 ^ 64) →
    entries.length ≤ fuel →
    readRecordsF fuel ((entries.map recordWire).flatten ++ transform FILEFLAGS_END :: rest) =
      .ok (entries.map recordOf, rest) := by
  induction entries with
  | nil =>
    intro fuel rest _ _
    simpa using readRecordsF_end fuel rest
  | cons e es ih =>
    intro fuel rest hval hfuel
    obtain ⟨fuel', rfl⟩ : ∃ f, fuel = f + 1 := ⟨fuel - 1, by simp at hfuel; omega⟩
    have he := hval e (by simp)
    rw [List.map_cons, List.flatten_cons, List.append_assoc,
      readRecordsF_cons fuel' e _ he.1 he.2,
      ih fuel' rest (fun x hx => hval x (by simp [hx])) (by simp at hfuel; omega)]
    rfl

/-! ### The record-table writer -/

theorem writeTableAux_cons (e : Entry) (es : List Entry) :
    writeTableAux (e :: es) =
      if e.path.length > MAX_NAME_LEN then
        ([transform 0x00], some (.invalidNameLength e.path.length))
      else if e.size > MAX_DATA_LEN then
        (transform 0x00 :: nameWire e, some (.invalidDataLength e.size))
      else (recordWire e ++ (writeTableAux es).1, (writeTableAux es).2) := rfl

theorem readPayloads_cons (r : Record) (rs : List Record) (s : List Nat) :
    readPayloads (r :: rs) s =
      match readBytes r.file_size s with
      | .error e => .error e
      | .ok (d, rest) =>
        match readPayloads rs rest with
        | .error e => .error e
        | .ok es => .ok (⟨r.name, r.filetime, true, d, 0⟩ :: es) := rfl

theorem slicePayloads_cons (r : Record) (rs : List Record) (s : List Nat) :
    slicePayloads (r :: rs) s =
      if r.file_size ≤ s.length then
        match slicePayloads rs (s.drop r.file_size) with
        | none => none
        | some es => some (⟨r.name, r.filetime, false, s.take r.file_size, 0⟩ :: es)
      else none := rfl

theorem writeTableAux_ok (entries : List Entry)
    (h : ∀ e ∈ entries, e.path.length ≤ MAX_NAME_LEN ∧ e.size ≤ MAX_DATA_LEN) :
    writeTableAux entries = ((entries.map recordWire).flatten, none) := by
  induction entries with
  | nil => rfl
  | cons e es ih =>
    have he := h e (by simp)
    rw [writeTableAux_cons, if_neg (by omega), if_neg (by omega),
      ih (fun x hx => h x (by simp [hx]))]
    simp

theorem writeTableAux_valid (entries : List Entry)
    (h : (writeTableAux entries).2 = none) :
    ∀ e ∈ entries, e.path.length ≤ MAX_NAME_LEN ∧ e.size ≤ MAX_DATA_LEN := by
  induction entries with
  | nil => simp
  | cons e es ih =>
    intro x hx
    rw [writeTableAux_cons] at h
    by_cases h1 : e.path.length > MAX_NAME_LEN
    · rw [if_pos h1] at h
      simp at h
    · rw [if_neg h1] at h
      by_cases h2 : e.size > MAX_DATA_LEN
      · rw [if_pos h2] at h
        simp at h
      · rw [if_neg h2] at h
        rcases List.mem_cons.mp hx with rfl | hx'
        · exact ⟨by omega, by omega⟩
        · exact ih h x hx'

theorem writeTableAux_append (pre l : List Entry)
    (h : ∀ e ∈ pre, e.path.length ≤ MAX_NAME_LEN ∧ e.size ≤ MAX_DATA_LEN) :
    writeTableAux (pre ++ l) =
      ((pre.map recordWire).flatten ++ (writeTableAux l).1, (writeTableAux l).2) := by
  induction pre with
  | nil => simp
  | cons e es ih =>
    have he := h e (by simp)
    rw [List.cons_append, writeTableAux_cons, if_neg (by omega), if_neg (by omega),
      ih (fun x hx => h x (by simp [hx]))]
    simp [List.append_assoc]

/-! ### Reading the payloads that `write_to` emits -/

theorem payloadWire_length (e : Entry) (h0 : e.pos = 0) :
    (payloadWire e).length = e.size := by
  simp [payloadWire, h0, Entry.size]

theorem readPayloads_exact (entries : List Entry)
    (hpos : ∀ e ∈ entries, e.pos = 0) :
    readPayloads (entries.map recordOf) ((entries.map payloadWire).flatten) =
      .ok (entries.map ownedOf) := by
  induction entries with
  | nil => rfl
  | cons e es ih =>
    have h0 := hpos e (by simp)
    simp only [List.map_cons, List.flatten_cons]
    rw [readPayloads_cons,
      show (recordOf e).file_size = (payloadWire e).length from (payloadWire_length e h0).symm,
      readBytes_exact]
    have hd : (payloadWire e).map transform = Entry.decoded e := by
      simp [payloadWire, h0]
    simp only [ih (fun x hx => hpos x (by simp [hx])), hd]
    simp [ownedOf, recordOf]

/-! ### The two payload strategies compared -/

theorem payload_modes (rs : List Record) :
    ∀ s : List Nat,
      exIsOk (readPayloads rs s) = (slicePayloads rs s).isSome ∧
      (∀ es es', readPayloads rs s = .ok es → slicePayloads rs s = some es' →
        es.map obsEntry = es'.map obsEntry) := by
  induction rs with
  | nil =>
    intro s
    constructor
    · rfl
    · intro es es' he he'
      have h1 : es = [] := by simpa [readPayloads] using he.symm
      have h2 : es' = [] := by simpa [slicePayloads] using he'.symm
      simp [h1, h2]
  | cons r rs ih =>
    intro s
    by_cases hle : r.file_size ≤ s.length
    · have hb : readBytes r.file_size s = .ok ((s.take r.file_size).map transform, s.drop r.file_size) := by
        unfold readBytes
        rw [if_pos hle]
      have hstep : readPayloads (r :: rs) s =
          match readPayloads rs (s.drop r.file_size) with
          | .error er => .error er
          | .ok es => .ok (⟨r.name, r.filetime, true, (s.take r.file_size).map transform, 0⟩ :: es) := by
        rw [readPayloads_cons, hb]
      have hstep' : slicePayloads (r :: rs) s =
          match slicePayloads rs (s.drop r.file_size) with
          | none => none
          | some es => some (⟨r.name, r.filetime, false, s.take r.file_size, 0⟩ :: es) := by
        rw [slicePayloads_cons, if_pos hle]
      have ihd := ih (s.drop r.file_size)
      constructor
      · rw [hstep, hstep']
        cases hrp : readPayloads rs (s.drop r.file_size) with
        | error er =>
          have hnone : slicePayloads rs (s.drop r.file_size) = none := by
            have h1 := ihd.1
            rw [hrp] at h1
            simp only [exIsOk] at h1
            exact Option.not_isSome_iff_eq_none.mp (by simp [← h1])
          rw [hnone]
          rfl
        | ok es =>
          have hsome : (slicePayloads rs (s.drop r.file_size)).isSome = true := by
            have h1 := ihd.1
            rw [hrp] at h1
            simp only [exIsOk] at h1
            exact h1.symm
          obtain ⟨es', hes'⟩ := Option.isSome_iff_exists.mp hsome
          rw [hes']
          rfl
      · intro es es' he he'
        rw [hstep] at he
        rw [hstep'] at he'
        cases hrp : readPayloads rs (s.drop r.file_size) with
        | error er =>
          rw [hrp] at he
          simp at he
        | ok tes =>
          cases hsp : slicePayloads rs (s.drop r.file_size) with
          | none =>
            rw [hsp] at he'
            simp at he'
          | some tes' =>
            rw [hrp] at he
            rw [hsp] at he'
            simp at he he'
            subst he
            subst he'
            simp only [List.map_cons]
            rw [ihd.2 tes tes' hrp hsp]
            simp [obsEntry, Entry.decoded, List.map_take]
    · have hb : readBytes r.file_size s = .error .ioError := by
        unfold readBytes
        rw [if_neg hle]
      constructor
      · rw [readPayloads_cons, hb, slicePayloads_cons, if_neg hle]
        rfl
      · intro es es' he he'
        rw [readPayloads_cons, hb] at he
        simp at he
theorem payload_truncated (rs : List Record) :
    ∀ s : List Nat, truncatedB rs s.length = true →
      readPayloads rs s = .error .ioError ∧ slicePayloads rs s = none := by
  induction rs with
  | nil => intro s h; simp [truncatedB] at h
  | cons r rs ih =>
    intro s h
    by_cases hle : r.file_size ≤ s.length
    · have h' : truncatedB rs (s.length - r.file_size) = true := by
        unfold truncatedB at h
        simp at h
        rcases h with h | h
        · omega
        · exact h
      have hih := ih (s.drop r.file_size) (by simpa using h')
      have hb : readBytes r.file_size s = .ok ((s.take r.file_size).map transform, s.drop r.file_size) := by
        unfold readBytes
        rw [if_pos hle]
      have hstep : readPayloads (r :: rs) s =
          match readPayloads rs (s.drop r.file_size) with
          | .error er => .error er
          | .ok es => .ok (⟨r.name, r.filetime, true, (s.take r.file_size).map transform, 0⟩ :: es) := by
        rw [readPayloads_cons, hb]
      constructor
      · rw [hstep, hih.1]
      · rw [slicePayloads_cons, if_pos hle, hih.2]
    · have hb : readBytes r.file_size s = .error .ioError := by
        unfold readBytes
        rw [if_neg hle]
      constructor
      · rw [readPayloads_cons, hb]
      · rw [slicePayloads_cons, if_neg hle]

/-! ### Path splitting -/

theorem rfindSep_none (l : List Nat) (h : ∀ b ∈ l, isSep b = false) :
    rfindSep l = none := by
  induction l with
  | nil => rfl
  | cons b rest ih =>
    unfold rfindSep
    rw [ih (fun x hx => h x (by simp [hx]))]
    simp [h b (by simp)]

theorem rfindSep_last (pre suf : List Nat) (s : Nat)
    (hs : isSep s = true) (hsuf : ∀ b ∈ suf, isSep b = false) :
    rfindSep (pre ++ s :: suf) = some pre.length := by
  induction pre with
  | nil =>
    show rfindSep (s :: suf) = some 0
    unfold rfindSep
    rw [rfindSep_none suf hsuf]
    simp [hs]
  | cons b pre ih =>
    show rfindSep (b :: (pre ++ s :: suf)) = _
    unfold rfindSep
    rw [ih]
    simp

theorem take_len_succ (pre suf : List Nat) (s : Nat) :
    (pre ++ s :: suf).take (pre.length + 1) = pre ++ [s] := by
  rw [List.take_append_eq_append_take]
  simp

/-! ### Ownership conversion -/

theorem obsEntry_into_owned (e : Entry) :
    obsEntry (Entry.into_owned e) = obsEntry e := by
  cases he : e.owned with
  | true => simp [Entry.into_owned, he]
  | false => simp [Entry.into_owned, he, obsEntry, Entry.decoded]

theorem map_into_owned_id (l : List Entry) (h : ∀ e ∈ l, e.owned = true) :
    l.map Entry.into_owned = l := by
  induction l with
  | nil => rfl
  | cons e es ih =>
    rw [List.map_cons, ih (fun x hx => h x (by simp [hx]))]
    simp [Entry.into_owned, h e (by simp)]

/-! ### Loading what `write_to` wrote -/

theorem write_to_ok (p : Pak)
    (hval : ∀ e ∈ p.entries, e.path.length ≤ MAX_NAME_LEN ∧ e.size ≤ MAX_DATA_LEN) :
    Pak.write_to p = (MAGIC.map transform ++ VERSION.map transform ++
      (p.entries.map recordWire).flatten ++ transform FILEFLAGS_END ::
      (p.entries.map payloadWire).flatten, none) := by
  simp only [Pak.write_to]
  rw [writeTableAux_ok p.entries hval]

theorem write_to_none_valid (p : Pak) (B : List Nat) (hw : Pak.write_to p = (B, none)) :
    ∀ e ∈ p.entries, e.path.length ≤ MAX_NAME_LEN ∧ e.size ≤ MAX_DATA_LEN := by
  apply writeTableAux_valid
  simp only [Pak.write_to] at hw
  cases h2 : (writeTableAux p.entries).2 with
  | none => rfl
  | some er =>
    rw [h2] at hw
    simp at hw

theorem parseTable_write (entries : List Entry) (rest : List Nat)
    (hval : ∀ e ∈ entries, e.path.length ≤ MAX_NAME_LEN ∧ e.size ≤ MAX_DATA_LEN)
    (hft : ∀ e ∈ entries, e.filetime < 2 ^ 64) :
    parseTable (MAGIC.map transform ++ VERSION.map transform ++
      (entries.map recordWire).flatten ++ transform FILEFLAGS_END :: rest) =
      .ok (entries.map recordOf, rest) := by
  have h1 : MAGIC.map transform ++ VERSION.map transform ++
        (entries.map recordWire).flatten ++ transform FILEFLAGS_END :: rest =
      MAGIC.map transform ++ (VERSION.map transform ++
        ((entries.map recordWire).flatten ++ transform FILEFLAGS_END :: rest)) := by
    simp [List.append_assoc]
  unfold parseTable
  rw [h1]
  simp only [read_magic_ok, read_version_ok]
  unfold readRecords
  apply readRecordsF_table entries _ rest (fun e he => ⟨(hval e he).2, hft e he⟩)
  have := entries_le_table_length entries
  simp only [List.length_append, List.length_cons]
  omega

theorem recordWire_ownedOf (e : Entry) : recordWire (ownedOf e) = recordWire e := by
  simp [recordWire, nameWire, sizeWire, timeWire, ownedOf, Entry.size]

theorem payloadWire_ownedOf (e : Entry) (h0 : e.pos = 0) :
    payloadWire (ownedOf e) = payloadWire e := by
  simp [payloadWire, ownedOf, Entry.decoded, h0]

/-! ### The claims -/

/-- Claim C5: for every byte, applying the obfuscation transform twice
returns the original byte: the transform is a fixed-value exclusive-or
(with `0xf7`) and hence self-inverse. -/
theorem c5_transform_involution (b : Nat) : transform (transform b) = b :=
  transform_invol b

/-- Claim C9: a name containing at least one occurrence of an accepted
separator byte yields a non-empty directory portion equal to the prefix of
the name up to and including the last separator occurrence; a name with no
separator byte yields no directory portion. -/
theorem c9_path_split (name pre suf : List Nat) (s : Nat) :
    (name = pre ++ s :: suf → isSep s = true → (∀ b ∈ suf, isSep b = false) →
      dirOf name = some (pre ++ [s]) ∧ pre ++ [s] ≠ []) ∧
    ((∀ b ∈ name, isSep b = false) → dirOf name = none) := by
  constructor
  · intro hn hs hsuf
    subst hn
    unfold dirOf
    rw [rfindSep_last pre suf s hs hsuf]
    refine ⟨?_, by simp⟩
    show some ((pre ++ s :: suf).take (pre.length + 1)) = some (pre ++ [s])
    rw [take_len_succ]
  · intro h
    unfold dirOf
    rw [rfindSep_none name h]
    rfl

/-- Witness for C9: the name "dir\b.txt" yields directory "dir\" and the
name "a.txt" yields none. -/
theorem c9_path_split_witness :
    (dirOf dirName = some ([100, 105, 114] ++ [92]) ∧
      [100, 105, 114] ++ [92] ≠ ([] : List Nat)) ∧
    dirOf flatName = none :=
  ⟨(c9_path_split dirName [100, 105, 114] [98, 46, 116, 120, 116] 92).1 (by decide)
      (by decide) (by decide),
    (c9_path_split flatName [] [] 0).2 (by decide)⟩

/-- Claim C10: `Pak::into_owned` preserves the observable state of a
pakfile (entry count, order, and per entry the path, timestamp and decoded
payload bytes), and on a pakfile whose entries are already owned it is the
identity. -/
theorem c10_into_owned (p : Pak) :
    obsPak (Pak.into_owned p) = obsPak p ∧
    ((∀ e ∈ p.entries, e.owned = true) → Pak.into_owned p = p) := by
  constructor
  · simp only [obsPak, Pak.into_owned, List.map_map]
    apply List.map_congr_left
    intro e _
    simpa [Function.comp] using obsEntry_into_owned e
  · intro h
    obtain ⟨l⟩ := p
    simp only [Pak.into_owned]
    congr 1
    exact map_into_owned_id l h

/-- Witness for C10 on a concrete fully owned pakfile. -/
theorem c10_into_owned_witness :
    obsPak (Pak.into_owned c10Pak) = obsPak c10Pak ∧ Pak.into_owned c10Pak = c10Pak :=
  ⟨(c10_into_owned c10Pak).1, (c10_into_owned c10Pak).2 (by decide)⟩

/-- Claim C6: an input whose first 4 bytes, after un-transforming, differ
from the magic constant fails (on either load path) with `InvalidMagic`
carrying those un-transformed bytes, whatever bytes follow (so table
parsing is never reached); an input with a correct magic but a wrong
version fails with `InvalidVersion` likewise before table parsing. -/
theorem c6_header_rejection (b4 v4 s t : List Nat) :
    (b4.length = 4 → b4.map transform ≠ MAGIC →
      Pak.from_read (b4 ++ s) = .err (.invalidMagic (b4.map transform)) ∧
      Pak.from_bytes (b4 ++ s) = .err (.invalidMagic (b4.map transform))) ∧
    (v4.length = 4 → v4.map transform ≠ VERSION →
      Pak.from_read (MAGIC.map transform ++ (v4 ++ t)) =
        .err (.invalidVersion (v4.map transform)) ∧
      Pak.from_bytes (MAGIC.map transform ++ (v4 ++ t)) =
        .err (.invalidVersion (v4.map transform))) := by
  constructor
  · intro h4 hm
    have hmg := read_magic_bad b4 s h4 hm
    constructor
    · simp only [Pak.from_read, parseTable, hmg]
    · simp only [Pak.from_bytes, parseTable, hmg]
  · intro h4 hv
    have h1 := read_magic_ok (v4 ++ t)
    have h2 := read_version_bad v4 t h4 hv
    constructor
    · simp only [Pak.from_read, parseTable, h1, h2]
    · simp only [Pak.from_bytes, parseTable, h1, h2]

/-- Witness for C6 at a wrong magic and at a wrong version, each followed
by junk that is never examined. -/
theorem c6_header_rejection_witness :
    (Pak.from_read ([1, 2, 3, 4] ++ [171]) =
        .err (.invalidMagic ([1, 2, 3, 4].map transform)) ∧
      Pak.from_bytes ([1, 2, 3, 4] ++ [171]) =
        .err (.invalidMagic ([1, 2, 3, 4].map transform))) ∧
    (Pak.from_read (MAGIC.map transform ++ ([9, 9, 9, 9] ++ [171])) =
        .err (.invalidVersion ([9, 9, 9, 9].map transform)) ∧
      Pak.from_bytes (MAGIC.map transform ++ ([9, 9, 9, 9] ++ [171])) =
        .err (.invalidVersion ([9, 9, 9, 9].map transform))) :=
  ⟨(c6_header_rejection [1, 2, 3, 4] [9, 9, 9, 9] [171] [171]).1 (by decide) (by decide),
    (c6_header_rejection [1, 2, 3, 4] [9, 9, 9, 9] [171] [171]).2 (by decide) (by decide)⟩

/-- Counterexample to Claim C3 as stated: on a pakfile whose only entry has
a 256-byte name, `write_to` does fail with `InvalidNameLength`, but one
table byte for that entry — its record flag `0x00` (transformed on the
wire) — has already been written to the sink, so "no table bytes are
written for that entry" is false. -/
theorem c3_counterexample :
    Pak.write_to c3Pak =
      (MAGIC.map transform ++ VERSION.map transform ++ [transform 0x00],
        some (.invalidNameLength 256)) ∧
    MAGIC.map transform ++ VERSION.map transform ++ [transform 0x00] ≠
      MAGIC.map transform ++ VERSION.map transform := by decide

/-- Claim C3 (amended): when `write_to` fails because an entry's name is
longer than `MAX_NAME_LEN` bytes (all entries before it being
serializable), the failure is `InvalidNameLength` carrying the name
length, and no table bytes for that entry beyond its already-written
1-byte record flag are written: the name length, name, size and timestamp
fields are not emitted, and nothing of any later entry is. -/
theorem c3_name_length_amended (pre rest : List Entry) (e : Entry)
    (hpre : ∀ x ∈ pre, x.path.length ≤ MAX_NAME_LEN ∧ x.size ≤ MAX_DATA_LEN)
    (hname : e.path.length > MAX_NAME_LEN) :
    Pak.write_to ⟨pre ++ e :: rest⟩ =
      (MAGIC.map transform ++ VERSION.map transform ++
        (pre.map recordWire).flatten ++ [transform 0x00],
        some (.invalidNameLength e.path.length)) := by
  simp only [Pak.write_to]
  rw [writeTableAux_append pre (e :: rest) hpre, writeTableAux_cons, if_pos hname]
  simp [List.append_assoc]

/-- Witness for the amended C3: a serializable entry followed by one with
a 300-byte name. -/
theorem c3_name_length_amended_witness :
    Pak.write_to ⟨[c3GoodEntry, c3BadEntry]⟩ =
      (MAGIC.map transform ++ VERSION.map transform ++
        ([c3GoodEntry].map recordWire).flatten ++ [transform 0x00],
        some (.invalidNameLength c3BadEntry.path.length)) :=
  c3_name_length_amended [c3GoodEntry] [] c3BadEntry (by decide) (by decide)

/-- Claim C7: when `write_to` fails because an entry's payload length
exceeds `MAX_DATA_LEN` (2^32 - 1) bytes, the failure is
`InvalidDataLength` carrying the actual size, and it happens before that
entry's 4-byte size field is written: the bytes written end with that
entry's flag and filename field. -/
theorem c7_data_length (pre rest : List Entry) (e : Entry)
    (hpre : ∀ x ∈ pre, x.path.length ≤ MAX_NAME_LEN ∧ x.size ≤ MAX_DATA_LEN)
    (hname : e.path.length ≤ MAX_NAME_LEN)
    (hdata : e.size > MAX_DATA_LEN) :
    Pak.write_to ⟨pre ++ e :: rest⟩ =
      (MAGIC.map transform ++ VERSION.map transform ++
        (pre.map recordWire).flatten ++ transform 0x00 :: nameWire e,
        some (.invalidDataLength e.size)) := by
  simp only [Pak.write_to]
  rw [writeTableAux_append pre (e :: rest) hpre, writeTableAux_cons,
    if_neg (by omega), if_pos hdata]
  simp [List.append_assoc]

/-- Witness for C7 at an entry carrying 2^32 zero bytes. -/
theorem c7_data_length_witness :
    Pak.write_to ⟨[c7Entry]⟩ =
      (MAGIC.map transform ++ VERSION.map transform ++
        (([] : List Entry).map recordWire).flatten ++ transform 0x00 :: nameWire c7Entry,
        some (.invalidDataLength c7Entry.size)) :=
  c7_data_length [] [] c7Entry (by simp)
    (by
      rw [show c7Entry.path = [97] from rfl]
      decide)
    (by
      show MAX_DATA_LEN < c7Entry.size
      rw [show c7Entry.size = (List.replicate 4294967296 0).length from rfl,
        List.length_replicate]
      decide)

/-- Counterexample to Claim C4 as stated: on input declaring a 1-byte
payload but carrying none, `Pak::from_bytes` panics on the out-of-range
slice `&bytes[..len]` instead of returning the I/O error the claim
asserts. -/
theorem c4_counterexample :
    Pak.from_bytes truncInput = .panicked ∧
    Pak.from_bytes truncInput ≠ .err .ioError := by decide

/-- Claim C4 (amended): for every input whose record table parses but
declares more payload bytes than remain, `Pak::from_read` surfaces the
short read as `PakError::Io`, while `Pak::from_bytes` panics on the
out-of-range slice rather than returning `PakError::Io`. -/
theorem c4_truncated_amended (s : List Nat) (rs : List Record) (rest : List Nat)
    (hp : parseTable s = .ok (rs, rest))
    (ht : truncatedB rs rest.length = true) :
    Pak.from_read s = .err .ioError ∧ Pak.from_bytes s = .panicked := by
  have h := payload_truncated rs rest ht
  constructor
  · simp only [Pak.from_read, hp, h.1]
  · simp only [Pak.from_bytes, hp, h.2]

/-- Witness for the amended C4 on the concrete truncated input. -/
theorem c4_truncated_amended_witness :
    Pak.from_read truncInput = .err .ioError ∧ Pak.from_bytes truncInput = .panicked :=
  c4_truncated_amended truncInput [⟨[97], 1, 0⟩] [] (by rfl) (by decide)

/-- Claim C2: on every input, `Pak::from_read` and `Pak::from_bytes`
either both fail to return a pakfile (by error or, for `from_bytes`, by
panic) or both succeed, and on success the pakfiles are observably equal:
same entry count and order and, per entry, the same path, timestamp and
fully decoded payload bytes. -/
theorem c2_mode_equivalence (B : List Nat) :
    (Pak.from_read B).isOk = (Pak.from_bytes B).isOk ∧
    (∀ q r, Pak.from_read B = .ok q → Pak.from_bytes B = .ok r →
      obsPak q = obsPak r) := by
  cases hpt : parseTable B with
  | error e =>
    have h1 : Pak.from_read B = .err e := by simp only [Pak.from_read, hpt]
    have h2 : Pak.from_bytes B = .err e := by simp only [Pak.from_bytes, hpt]
    rw [h1, h2]
    constructor
    · rfl
    · intro q r hq hr
      simp at hq
  | ok pr =>
    obtain ⟨rs, rest⟩ := pr
    have hm := payload_modes rs rest
    cases hrp : readPayloads rs rest with
    | error er =>
      have hnone : slicePayloads rs rest = none := by
        have hh := hm.1
        rw [hrp] at hh
        simp only [exIsOk] at hh
        exact Option.not_isSome_iff_eq_none.mp (by simp [← hh])
      have h1 : Pak.from_read B = .err er := by simp only [Pak.from_read, hpt, hrp]
      have h2 : Pak.from_bytes B = .panicked := by simp only [Pak.from_bytes, hpt, hnone]
      rw [h1, h2]
      constructor
      · rfl
      · intro q r hq hr
        simp at hq
    | ok es =>
      have hsome := hm.1
      rw [hrp] at hsome
      simp only [exIsOk] at hsome
      obtain ⟨es', hes'⟩ := Option.isSome_iff_exists.mp hsome.symm
      have h1 : Pak.from_read B = .ok ⟨es⟩ := by simp only [Pak.from_read, hpt, hrp]
      have h2 : Pak.from_bytes B = .ok ⟨es'⟩ := by simp only [Pak.from_bytes, hpt, hes']
      rw [h1, h2]
      constructor
      · rfl
      · intro q r hq hr
        injection hq with hq1
        injection hr with hr1
        subst hq1
        subst hr1
        simp only [obsPak]
        exact hm.2 es es' hrp hes'
/-- Witness for C2: loading the serialized one-entry sample pakfile in
both modes succeeds, and the owned and the borrowed results are
observably equal. -/
theorem c2_mode_equivalence_witness :
    (Pak.from_read sampleBytes).isOk = (Pak.from_bytes sampleBytes).isOk ∧
    obsPak samplePak = obsPak sampleBorrowedPak :=
  ⟨(c2_mode_equivalence sampleBytes).1,
    (c2_mode_equivalence sampleBytes).2 samplePak sampleBorrowedPak (by decide) (by decide)⟩

/-- Counterexample to Claim C1 as stated: the bytes of an empty pakfile
followed by one junk byte load successfully (both loaders stop at the
table terminator and ignore trailing input), but `write_to` on the loaded
pakfile emits the 9 header-and-terminator bytes only, which differ from
the 10-byte input. -/
theorem c1_counterexample :
    Pak.from_read (emptyPakBytes ++ [0]) = .ok ⟨[]⟩ ∧
    Pak.write_to ⟨[]⟩ = (emptyPakBytes, none) ∧
    emptyPakBytes ≠ emptyPakBytes ++ [0] := by decide

/-- Claim C1 (amended): for every pakfile `p` whose entry cursors are at
the start of their payloads (and whose timestamps fit in a `u64`, as the
Rust type guarantees), if `write_to` succeeds and produces the byte
sequence `B`, then `Pak::from_read` on `B` succeeds, yields a pakfile
observably equal to `p`, and calling `write_to` on that loaded pakfile
writes exactly `B` again.  (As originally stated the claim fails: loading
ignores any input bytes after the last declared payload, so a loaded
pakfile cannot reproduce such trailing bytes.) -/
theorem c1_round_trip_amended (p : Pak) (B : List Nat)
    (hw : Pak.write_to p = (B, none))
    (hpos : ∀ e ∈ p.entries, e.pos = 0)
    (hft : ∀ e ∈ p.entries, e.filetime < 2 ^ 64) :
    Pak.from_read B = .ok (ownedLoad p) ∧
    obsPak (ownedLoad p) = obsPak p ∧
    Pak.write_to (ownedLoad p) = (B, none) := by
  have hval := write_to_none_valid p B hw
  have hB : B = MAGIC.map transform ++ VERSION.map transform ++
      (p.entries.map recordWire).flatten ++ transform FILEFLAGS_END ::
      (p.entries.map payloadWire).flatten := by
    have h3 := write_to_ok p hval
    rw [hw] at h3
    simpa using congrArg Prod.fst h3
  subst hB
  have hval' : ∀ e ∈ (ownedLoad p).entries,
      e.path.length ≤ MAX_NAME_LEN ∧ e.size ≤ MAX_DATA_LEN := by
    intro e he
    simp only [ownedLoad, List.mem_map] at he
    obtain ⟨x, hx, rfl⟩ := he
    have hx2 := hval x hx
    simpa [ownedOf, Entry.size] using hx2
  have hpt := parseTable_write p.entries ((p.entries.map payloadWire).flatten) hval hft
  refine ⟨?_, ?_, ?_⟩
  · simp only [Pak.from_read, hpt, readPayloads_exact p.entries hpos]
    rfl
  · simp only [obsPak, ownedLoad, List.map_map]
    apply List.map_congr_left
    intro e _
    simp [Function.comp, obsEntry, ownedOf, Entry.decoded]
  · rw [write_to_ok (ownedLoad p) hval']
    have hrw : (ownedLoad p).entries.map recordWire = p.entries.map recordWire := by
      simp only [ownedLoad, List.map_map]
      exact List.map_congr_left (fun e _ => by
        simpa [Function.comp] using recordWire_ownedOf e)
    have hpw : (ownedLoad p).entries.map payloadWire = p.entries.map payloadWire := by
      simp only [ownedLoad, List.map_map]
      exact List.map_congr_left (fun e he => by
        simpa [Function.comp] using payloadWire_ownedOf e (hpos e he))
    rw [hrw, hpw]

/-- Witness for the amended C1 on the serialized one-entry sample
pakfile. -/
theorem c1_round_trip_amended_witness :
    Pak.from_read (Pak.write_to samplePak).1 = .ok (ownedLoad samplePak) ∧
    obsPak (ownedLoad samplePak) = obsPak samplePak ∧
    Pak.write_to (ownedLoad samplePak) = ((Pak.write_to samplePak).1, none) :=
  c1_round_trip_amended samplePak (Pak.write_to samplePak).1 (by decide) (by decide)
    (by decide)

/-- Claim C8: the byte sequence produced by a successful `write_to` (on a
pakfile whose entry cursors are at the start) is: the transformed magic,
the transformed version, then one record per entry in entry-list order
(flag byte `0x00`, 1-byte name length, name bytes, 4-byte little-endian
size, 8-byte little-endian timestamp, all through the transform), then the
single terminator flag byte `0x80` (transformed), and only after the
complete table every entry's payload bytes (through the transform) in the
same entry-list order. -/
theorem c8_layout (p : Pak)
    (hv : ∀ e ∈ p.entries, e.path.length ≤ MAX_NAME_LEN ∧ e.size ≤ MAX_DATA_LEN)
    (hpos : ∀ e ∈ p.entries, e.pos = 0) :
    Pak.write_to p =
      (MAGIC.map transform ++ VERSION.map transform ++
        (p.entries.map recordWire).flatten ++ transform FILEFLAGS_END ::
        (p.entries.map (fun e => (Entry.decoded e).map transform)).flatten,
        none) := by
  rw [write_to_ok p hv]
  have hpw : p.entries.map payloadWire =
      p.entries.map (fun e => (Entry.decoded e).map transform) :=
    List.map_congr_left (fun e he => by simp [payloadWire, hpos e he])
  rw [hpw]

/-- Witness for C8 on a concrete two-entry pakfile (one owned entry, one
borrowed entry). -/
theorem c8_layout_witness :
    Pak.write_to c8Pak =
      (MAGIC.map transform ++ VERSION.map transform ++
        (c8Pak.entries.map recordWire).flatten ++ transform FILEFLAGS_END ::
        (c8Pak.entries.map (fun e => (Entry.decoded e).map transform)).flatten,
        none) :=
  c8_layout c8Pak (by decide) (by decide)
